import Mathlib

/-!
Shallow embedding of the Nobitex arbitrage engine (`src/triangles.ts`).

Modelling conventions:
* JavaScript `number` values that flow through the engine are modelled as
  exact rationals (`ℚ`).  The raw snapshot, before normalization, may hold
  non-finite values (`NaN`, `±Infinity`), modelled by the inductive `JsNum`.
  After `parseAllPairs` every kept field is a finite rational, so the
  downstream finders operate on `ℚ` directly.
* For finite operands, `isFinite(a / b)` fails exactly when `b = 0`, so the
  source guard `isFinite(rate)` is modelled as the relevant divisor being
  nonzero.
* A JavaScript `Map` built by repeated `set` over a list returns, on `get`,
  the value of the last list element with the given key; `idxGet` models this.
* `Array.prototype.sort` with comparator `(a, b) => b.key - a.key` is a
  stable descending sort by `key`; `sortByKeyDesc` is a stable insertion
  sort producing the same (unique) stable order.
-/

namespace Nobitex

/-- A JavaScript number: a finite rational, or one of the non-finite values. -/
inductive JsNum where
  | num (q : ℚ)
  | nan
  | inf
  | neginf
deriving DecidableEq

/-- `isFinite(n) && n > 0`, the combined guard the normalizer applies to prices. -/
def JsNum.isPosFinite : JsNum → Bool
  | .num q => decide (0 < q)
  | _ => false

/-- The rational value of a finite `JsNum` (only read after `isPosFinite`). -/
def JsNum.val : JsNum → ℚ
  | .num q => q
  | _ => 0

/-- `isFinite(n) && n > 0 ? n : 0` — the quantity clamping rule of the normalizer. -/
def clampQty : JsNum → ℚ
  | .num q => if 0 < q then q else 0
  | _ => 0

structure MarketPair where
  symbol : String
  asset : String
  quote : String
  bestBid : ℚ
  bestBidQty : ℚ
  bestAsk : ℚ
  bestAskQty : ℚ
deriving DecidableEq, Inhabited

inductive Side where
  | buy
  | sell
deriving DecidableEq, Inhabited

structure Leg where
  pair : String
  side : Side
  price : ℚ
  availableQty : ℚ
  qtyUnit : String
deriving DecidableEq, Inhabited

inductive StrategyType where
  | triangle
  | cross
deriving DecidableEq, Inhabited

inductive Direction where
  | cw
  | ccw
  | cross
deriving DecidableEq, Inhabited

structure Opportunity where
  type : StrategyType
  assets : List String
  base : String
  direction : Direction
  legs : List Leg
  rate : ℚ
  grossPct : ℚ
  feePct : ℚ
  netPct : ℚ
  maxVolumeIRT : ℚ
  expectedProfitIRT : ℚ
  bottleneckLeg : ℕ
deriving DecidableEq, Inhabited

/-- `parseSymbol` from the source: suffix rule with hardcoded tickers.
    JavaScript `length` / `endsWith` / `slice(0, -n)` operate on UTF-16
    units; symbols are ASCII, so character-list operations coincide. -/
def parseSymbol (symbol : String) : Option (String × String) :=
  if symbol.data.length > 4 && "USDT".data.isSuffixOf symbol.data then
    some (String.mk (symbol.data.take (symbol.data.length - 4)), "USDT")
  else if symbol.data.length > 3 && "IRT".data.isSuffixOf symbol.data then
    some (String.mk (symbol.data.take (symbol.data.length - 3)), "IRT")
  else none

/-- A raw order-book object: `bids` / `asks` may be absent (`none`) and rows are
    lists of JavaScript numbers (a missing cell reads as `NaN`, like
    `Number(undefined)`). String-to-number conversion is pre-applied. -/
structure RawEntry where
  bids : Option (List (List JsNum))
  asks : Option (List (List JsNum))
deriving DecidableEq, Inhabited

/-- Best row extraction: `bids?.length` must be truthy, then `bids[0][0]` and
    `bids[0][1]` (missing cells give `NaN`). -/
def bestRow : Option (List JsNum) → Option (JsNum × JsNum)
  | some row => some (row.getD 0 .nan, row.getD 1 .nan)
  | none => none

/-- First row of an optional array, `none` when the array is absent or empty. -/
def firstRow : Option (List (List JsNum)) → Option (List JsNum)
  | some (row :: _) => some row
  | _ => none

/-- One iteration of the `parseAllPairs` loop body. A `none` entry models a
    `null` or non-object value. -/
def parseOnePair (key : String) (entry : Option RawEntry) : Option MarketPair :=
  if key = "status" then none else
  match entry with
  | none => none
  | some e =>
    match parseSymbol key with
    | none => none
    | some (asset, quote) =>
      match bestRow (firstRow e.bids), bestRow (firstRow e.asks) with
      | some (bb, bbq), some (ba, baq) =>
        if bb.isPosFinite && ba.isPosFinite then
          some { symbol := key, asset := asset, quote := quote,
                 bestBid := bb.val, bestBidQty := clampQty bbq,
                 bestAsk := ba.val, bestAskQty := clampQty baq }
        else none
      | _, _ => none

/-- `parseAllPairs`: the raw snapshot is a key→value mapping traversed in
    insertion order. -/
def parseAllPairs (data : List (String × Option RawEntry)) : List MarketPair :=
  data.filterMap (fun kv => parseOnePair kv.1 kv.2)

/-- `idx.get(asset + ":" + quote)` after `idx.set` over the whole list:
    the last matching pair wins. -/
def idxGet (pairs : List MarketPair) (asset quote : String) : Option MarketPair :=
  (pairs.filter (fun p => p.asset == asset && p.quote == quote)).getLast?

structure AssetEntry where
  asset : String
  irt : MarketPair
  base : MarketPair
deriving DecidableEq, Inhabited

/-- `buildAssetEntries` from the source. -/
def buildAssetEntries (pairs : List MarketPair) (baseCurrency : String) :
    List AssetEntry :=
  pairs.filterMap (fun p =>
    if p.quote = "IRT" ∧ p.asset ≠ baseCurrency then
      (idxGet pairs p.asset baseCurrency).map
        (fun bp => { asset := p.asset, irt := p, base := bp })
    else none)

/-- CW leg-3 capacity: `xBase.bestBid > 0 ? bridge.bestBidQty / xBase.bestBid : 0`. -/
def cwL3 (bridge : MarketPair) (e : AssetEntry) : ℚ :=
  if 0 < e.base.bestBid then bridge.bestBidQty / e.base.bestBid else 0

/-- CW `maxX = Math.min(l1, l2, l3)`. -/
def cwMaxX (bridge : MarketPair) (e : AssetEntry) : ℚ :=
  min e.irt.bestAskQty (min e.base.bestBidQty (cwL3 bridge e))

/-- CW `vol = maxX * xIrt.bestAsk`. -/
def cwVol (bridge : MarketPair) (e : AssetEntry) : ℚ :=
  cwMaxX bridge e * e.irt.bestAsk

/-- The CW (IRT → X → BASE → IRT) candidate of one asset entry. -/
def triCW (bridge : MarketPair) (baseCurrency : String) (fee : ℚ)
    (e : AssetEntry) : Option Opportunity :=
  let rate := e.base.bestBid * bridge.bestBid / e.irt.bestAsk
  let grossPct := (rate - 1) * 100
  let totalFee := 3 * fee
  let netPct := grossPct - totalFee
  let maxX := cwMaxX bridge e
  let vol := cwVol bridge e
  let profit := netPct / 100 * vol
  let bn : ℕ :=
    if maxX = e.irt.bestAskQty then 0
    else if maxX = e.base.bestBidQty then 1 else 2
  if e.irt.bestAsk ≠ 0 ∧ 0 < vol then
    some { type := .triangle, assets := [e.asset], base := baseCurrency,
           direction := .cw,
           legs := [
             { pair := e.irt.symbol, side := .buy, price := e.irt.bestAsk,
               availableQty := e.irt.bestAskQty, qtyUnit := e.asset },
             { pair := e.base.symbol, side := .sell, price := e.base.bestBid,
               availableQty := e.base.bestBidQty, qtyUnit := e.asset },
             { pair := bridge.symbol, side := .sell, price := bridge.bestBid,
               availableQty := bridge.bestBidQty, qtyUnit := baseCurrency }],
           rate := rate, grossPct := grossPct, feePct := totalFee,
           netPct := netPct, maxVolumeIRT := vol, expectedProfitIRT := profit,
           bottleneckLeg := bn }
  else none

/-- CCW leg-1 capacity: `xBase.bestAsk > 0 ? bridge.bestAskQty / xBase.bestAsk : 0`. -/
def ccwL1 (bridge : MarketPair) (e : AssetEntry) : ℚ :=
  if 0 < e.base.bestAsk then bridge.bestAskQty / e.base.bestAsk else 0

/-- CCW `maxX = Math.min(l1, l2, l3)`. -/
def ccwMaxX (bridge : MarketPair) (e : AssetEntry) : ℚ :=
  min (ccwL1 bridge e) (min e.base.bestAskQty e.irt.bestBidQty)

/-- CCW `vol = maxX * xBase.bestAsk * bridge.bestAsk`. -/
def ccwVol (bridge : MarketPair) (e : AssetEntry) : ℚ :=
  ccwMaxX bridge e * e.base.bestAsk * bridge.bestAsk

/-- The CCW (IRT → BASE → X → IRT) candidate of one asset entry. -/
def triCCW (bridge : MarketPair) (baseCurrency : String) (fee : ℚ)
    (e : AssetEntry) : Option Opportunity :=
  let rate := e.irt.bestBid / (e.base.bestAsk * bridge.bestAsk)
  let grossPct := (rate - 1) * 100
  let totalFee := 3 * fee
  let netPct := grossPct - totalFee
  let maxX := ccwMaxX bridge e
  let vol := ccwVol bridge e
  let profit := netPct / 100 * vol
  let bn : ℕ :=
    if maxX = ccwL1 bridge e then 0
    else if maxX = e.base.bestAskQty then 1 else 2
  if e.base.bestAsk * bridge.bestAsk ≠ 0 ∧ 0 < vol then
    some { type := .triangle, assets := [e.asset], base := baseCurrency,
           direction := .ccw,
           legs := [
             { pair := bridge.symbol, side := .buy, price := bridge.bestAsk,
               availableQty := bridge.bestAskQty, qtyUnit := baseCurrency },
             { pair := e.base.symbol, side := .buy, price := e.base.bestAsk,
               availableQty := e.base.bestAskQty, qtyUnit := e.asset },
             { pair := e.irt.symbol, side := .sell, price := e.irt.bestBid,
               availableQty := e.irt.bestBidQty, qtyUnit := e.asset }],
           rate := rate, grossPct := grossPct, feePct := totalFee,
           netPct := netPct, maxVolumeIRT := vol, expectedProfitIRT := profit,
           bottleneckLeg := bn }
  else none

/-- `findTriangles` from the source. -/
def findTriangles (pairs : List MarketPair) (baseCurrency : String)
    (fee : ℚ) : List Opportunity :=
  match idxGet pairs baseCurrency "IRT" with
  | none => []
  | some bridge =>
    (buildAssetEntries pairs baseCurrency).flatMap
      (fun e => (triCW bridge baseCurrency fee e).toList ++
                (triCCW bridge baseCurrency fee e).toList)

/-!
Stable descending sort: `results.sort((a, b) => b.key - a.key)` in JavaScript
is the stable descending order by `key`; insertion sort below computes it.
-/

/-- Insert `a` into `l` before the first element whose key is `≤ key a`
    (so an earlier element precedes later ones with an equal key). -/
def insertByKey {α : Type} (key : α → ℚ) (a : α) : List α → List α
  | [] => [a]
  | b :: l => if key b ≤ key a then a :: b :: l else b :: insertByKey key a l

/-- Stable insertion sort by descending `key`. -/
def sortByKeyDesc {α : Type} (key : α → ℚ) : List α → List α
  | [] => []
  | a :: l => insertByKey key a (sortByKeyDesc key l)

/-- An `AssetEntry` with the precomputed `sellRatio` / `buyRatio` of
    `findCrossPairs`. -/
structure RatioEntry where
  asset : String
  irt : MarketPair
  base : MarketPair
  sellRatio : ℚ
  buyRatio : ℚ
deriving DecidableEq, Inhabited

/-- `{...e, sellRatio: ..., buyRatio: ...}` from `findCrossPairs`. -/
def mkRatioEntry (e : AssetEntry) : RatioEntry :=
  { asset := e.asset, irt := e.irt, base := e.base,
    sellRatio := e.base.bestBid / e.irt.bestAsk,
    buyRatio := e.irt.bestBid / e.base.bestAsk }

/-- Cross-pair leg-3 capacity (in seller-asset units). -/
def crossL3 (seller buyer : RatioEntry) : ℚ :=
  if 0 < seller.base.bestBid then
    buyer.base.bestAskQty * buyer.base.bestAsk / seller.base.bestBid
  else 0

/-- Cross-pair leg-4 capacity (in seller-asset units). -/
def crossL4 (seller buyer : RatioEntry) : ℚ :=
  if 0 < seller.base.bestBid then
    buyer.irt.bestBidQty * buyer.base.bestAsk / seller.base.bestBid
  else 0

/-- Cross-pair `maxX = Math.min(l1, l2, l3, l4)`. -/
def crossMaxX (seller buyer : RatioEntry) : ℚ :=
  min seller.irt.bestAskQty
    (min seller.base.bestBidQty (min (crossL3 seller buyer) (crossL4 seller buyer)))

/-- Cross-pair `vol = maxX * seller.irt.bestAsk`. -/
def crossVol (seller buyer : RatioEntry) : ℚ :=
  crossMaxX seller buyer * seller.irt.bestAsk

/-- The loop body of `findCrossPairs` for one (seller, buyer) pair.
    `isFinite(rate)` is modelled as both ratio divisors being nonzero, which for
    the ratios built by `mkRatioEntry` from finite fields is exactly when the
    JavaScript `rate` is finite. -/
def crossCand (baseCurrency : String) (fee : ℚ)
    (seller buyer : RatioEntry) : Option Opportunity :=
  if seller.asset = buyer.asset then none else
  let rate := seller.sellRatio * buyer.buyRatio
  let grossPct := (rate - 1) * 100
  let totalFee := 4 * fee
  let netPct := grossPct - totalFee
  if netPct < -5 then none else
  let maxX := crossMaxX seller buyer
  let vol := crossVol seller buyer
  let profit := netPct / 100 * vol
  if (seller.irt.bestAsk ≠ 0 ∧ buyer.base.bestAsk ≠ 0) ∧ 0 < vol then
    some { type := .cross, assets := [seller.asset, buyer.asset],
           base := baseCurrency, direction := .cross,
           legs := [
             { pair := seller.irt.symbol, side := .buy,
               price := seller.irt.bestAsk,
               availableQty := seller.irt.bestAskQty, qtyUnit := seller.asset },
             { pair := seller.base.symbol, side := .sell,
               price := seller.base.bestBid,
               availableQty := seller.base.bestBidQty, qtyUnit := seller.asset },
             { pair := buyer.base.symbol, side := .buy,
               price := buyer.base.bestAsk,
               availableQty := buyer.base.bestAskQty, qtyUnit := buyer.asset },
             { pair := buyer.irt.symbol, side := .sell,
               price := buyer.irt.bestBid,
               availableQty := buyer.irt.bestBidQty, qtyUnit := buyer.asset }],
           rate := rate, grossPct := grossPct, feePct := totalFee,
           netPct := netPct, maxVolumeIRT := vol, expectedProfitIRT := profit,
           bottleneckLeg :=
             if maxX = seller.irt.bestAskQty then 0
             else if maxX = seller.base.bestBidQty then 1
             else if maxX = crossL3 seller buyer then 2 else 3 }
  else none

/-- `findCrossPairs` from the source. -/
def findCrossPairs (pairs : List MarketPair) (baseCurrency : String)
    (fee : ℚ) (maxResults : ℕ := 200) : List Opportunity :=
  let entries := buildAssetEntries pairs baseCurrency
  let withRatios := entries.map mkRatioEntry
  let K := min withRatios.length 60
  let bySell := (sortByKeyDesc RatioEntry.sellRatio withRatios).take K
  let byBuy := (sortByKeyDesc RatioEntry.buyRatio withRatios).take K
  let results := bySell.flatMap
    (fun s => byBuy.filterMap (fun b => crossCand baseCurrency fee s b))
  (sortByKeyDesc Opportunity.netPct results).take maxResults

/-- `findAllOpportunities` from the source (`findCrossPairs` at its default
    `maxResults = 200`). -/
def findAllOpportunities (pairs : List MarketPair) (baseCurrency : String)
    (fee : ℚ) : List Opportunity :=
  sortByKeyDesc Opportunity.netPct
    (findTriangles pairs baseCurrency fee ++ findCrossPairs pairs baseCurrency fee)

/-- The per-leg available quantities of an opportunity, converted into the
    cycle's common unit exactly as the source's `l1 … l3` / `l1 … l4` do
    (read back off the emitted legs). -/
def convCaps (o : Opportunity) : List ℚ :=
  match o.direction, o.legs with
  | .cw, [a, b, c] =>
      [a.availableQty, b.availableQty,
       if 0 < b.price then c.availableQty / b.price else 0]
  | .ccw, [a, b, c] =>
      [if 0 < b.price then a.availableQty / b.price else 0,
       b.availableQty, c.availableQty]
  | .cross, [a, b, c, d] =>
      [a.availableQty, b.availableQty,
       if 0 < b.price then c.availableQty * c.price / b.price else 0,
       if 0 < b.price then d.availableQty * c.price / b.price else 0]
  | _, _ => []

/-- The bottleneck contract: the indexed converted capacity is the minimum over
    all legs, and every earlier leg's converted capacity is strictly larger. -/
def BottleneckOk (o : Opportunity) : Prop :=
  o.bottleneckLeg < (convCaps o).length ∧
  (∀ c ∈ convCaps o, (convCaps o).getD o.bottleneckLeg 0 ≤ c) ∧
  (∀ j, j < o.bottleneckLeg →
    (convCaps o).getD o.bottleneckLeg 0 < (convCaps o).getD j 0)

instance (o : Opportunity) : Decidable (BottleneckOk o) := by
  unfold BottleneckOk
  exact instDecidableAnd

/-! Helper lemmas about the stable sort. -/

theorem perm_insertByKey {α : Type} (key : α → ℚ) (a : α) :
    ∀ l : List α, List.Perm (insertByKey key a l) (a :: l)
  | [] => .refl _
  | b :: l => by
    unfold insertByKey
    split
    · exact .refl _
    · exact ((perm_insertByKey key a l).cons b).trans (List.Perm.swap a b l)

theorem perm_sortByKeyDesc {α : Type} (key : α → ℚ) :
    ∀ l : List α, List.Perm (sortByKeyDesc key l) l
  | [] => .refl _
  | a :: l =>
    (perm_insertByKey key a (sortByKeyDesc key l)).trans
      ((perm_sortByKeyDesc key l).cons a)

theorem mem_insertByKey {α : Type} {key : α → ℚ} {a x : α} {l : List α} :
    x ∈ insertByKey key a l ↔ x = a ∨ x ∈ l := by
  rw [(perm_insertByKey key a l).mem_iff, List.mem_cons]

theorem mem_sortByKeyDesc {α : Type} {key : α → ℚ} {x : α} {l : List α} :
    x ∈ sortByKeyDesc key l ↔ x ∈ l :=
  (perm_sortByKeyDesc key l).mem_iff

theorem pairwise_insertByKey {α : Type} (key : α → ℚ) (a : α) :
    ∀ l : List α, l.Pairwise (fun x y => key y ≤ key x) →
      (insertByKey key a l).Pairwise (fun x y => key y ≤ key x)
  | [], _ => by simp [insertByKey]
  | b :: l, h => by
    rw [List.pairwise_cons] at h
    unfold insertByKey
    split
    · rename_i hba
      refine List.Pairwise.cons ?_ (List.Pairwise.cons h.1 h.2)
      intro y hy
      rcases List.mem_cons.mp hy with rfl | hy
      · exact hba
      · exact (h.1 y hy).trans hba
    · rename_i hba
      refine List.Pairwise.cons ?_ (pairwise_insertByKey key a l h.2)
      intro y hy
      rcases mem_insertByKey.mp hy with rfl | hy
      · exact (lt_of_not_ge hba).le
      · exact h.1 y hy

theorem pairwise_sortByKeyDesc {α : Type} (key : α → ℚ) :
    ∀ l : List α, (sortByKeyDesc key l).Pairwise (fun x y => key y ≤ key x)
  | [] => .nil
  | a :: l => pairwise_insertByKey key a _ (pairwise_sortByKeyDesc key l)

theorem filter_insertByKey_pos {α : Type} (key : α → ℚ) (q : ℚ) (a : α)
    (ha : key a = q) :
    ∀ l : List α,
      (insertByKey key a l).filter (fun x => decide (key x = q)) =
        a :: l.filter (fun x => decide (key x = q))
  | [] => by simp [insertByKey, ha]
  | b :: l => by
    unfold insertByKey
    split
    · simp [List.filter_cons, ha]
    · rename_i hba
      have hbq : ¬ key b = q := fun hb => hba (le_of_eq (hb.trans ha.symm))
      simp only [List.filter_cons, decide_eq_true_eq, if_neg hbq]
      exact filter_insertByKey_pos key q a ha l

theorem filter_insertByKey_neg {α : Type} (key : α → ℚ) (q : ℚ) (a : α)
    (ha : ¬ key a = q) :
    ∀ l : List α,
      (insertByKey key a l).filter (fun x => decide (key x = q)) =
        l.filter (fun x => decide (key x = q))
  | [] => by simp [insertByKey, ha]
  | b :: l => by
    unfold insertByKey
    split
    · simp [List.filter_cons, ha]
    · by_cases hb : key b = q
      · simp only [List.filter_cons, decide_eq_true_eq, if_pos hb]
        rw [filter_insertByKey_neg key q a ha l]
      · simp only [List.filter_cons, decide_eq_true_eq, if_neg hb]
        rw [filter_insertByKey_neg key q a ha l]

theorem filter_sortByKeyDesc {α : Type} (key : α → ℚ) (q : ℚ) :
    ∀ l : List α,
      (sortByKeyDesc key l).filter (fun x => decide (key x = q)) =
        l.filter (fun x => decide (key x = q))
  | [] => rfl
  | a :: l => by
    by_cases ha : key a = q
    · rw [sortByKeyDesc, filter_insertByKey_pos key q a ha,
        filter_sortByKeyDesc key q l]
      simp [List.filter_cons, ha]
    · rw [sortByKeyDesc, filter_insertByKey_neg key q a ha,
        filter_sortByKeyDesc key q l]
      simp [List.filter_cons, ha]

/-! Helper lemmas about the bottleneck index chain. -/

theorem argmin3 (l1 l2 l3 m : ℚ) (bn : ℕ) (hm : m = min l1 (min l2 l3))
    (hbn : bn = if m = l1 then 0 else if m = l2 then 1 else 2) :
    bn < 3 ∧ [l1, l2, l3].getD bn 0 = m ∧ (∀ c ∈ [l1, l2, l3], m ≤ c) ∧
      (∀ j, j < bn → m < [l1, l2, l3].getD j 0) := by
  have hle1 : m ≤ l1 := hm ▸ min_le_left _ _
  have hle2 : m ≤ l2 := hm ▸ le_trans (min_le_right _ _) (min_le_left _ _)
  have hle3 : m ≤ l3 := hm ▸ le_trans (min_le_right _ _) (min_le_right _ _)
  have hmem : ∀ c ∈ [l1, l2, l3], m ≤ c := by
    intro c hc
    rcases List.mem_cons.mp hc with rfl | hc
    · exact hle1
    rcases List.mem_cons.mp hc with rfl | hc
    · exact hle2
    rcases List.mem_cons.mp hc with rfl | hc
    · exact hle3
    · simp at hc
  by_cases h1 : m = l1
  · rw [hbn, if_pos h1]
    refine ⟨by omega, by simpa using h1.symm, hmem, ?_⟩
    intro j hj
    exact absurd hj (Nat.not_lt_zero j)
  by_cases h2 : m = l2
  · rw [hbn, if_neg h1, if_pos h2]
    refine ⟨by omega, by simpa using h2.symm, hmem, ?_⟩
    intro j hj
    have hj0 : j = 0 := by omega
    subst hj0
    simpa using lt_of_le_of_ne hle1 h1
  · have h3 : m = l3 := by
      rcases min_choice l1 (min l2 l3) with h | h
      · exact absurd (hm.trans h) h1
      · rcases min_choice l2 l3 with h' | h'
        · exact absurd (hm.trans (h.trans h')) h2
        · exact hm.trans (h.trans h')
    rw [hbn, if_neg h1, if_neg h2]
    refine ⟨by omega, by simpa using h3.symm, hmem, ?_⟩
    intro j hj
    have hj01 : j = 0 ∨ j = 1 := by omega
    rcases hj01 with rfl | rfl
    · simpa using lt_of_le_of_ne hle1 h1
    · simpa using lt_of_le_of_ne hle2 h2

theorem argmin4 (l1 l2 l3 l4 m : ℚ) (bn : ℕ)
    (hm : m = min l1 (min l2 (min l3 l4)))
    (hbn : bn = if m = l1 then 0 else if m = l2 then 1
                else if m = l3 then 2 else 3) :
    bn < 4 ∧ [l1, l2, l3, l4].getD bn 0 = m ∧
      (∀ c ∈ [l1, l2, l3, l4], m ≤ c) ∧
      (∀ j, j < bn → m < [l1, l2, l3, l4].getD j 0) := by
  have hle1 : m ≤ l1 := hm ▸ min_le_left _ _
  have hle2 : m ≤ l2 := hm ▸ le_trans (min_le_right _ _) (min_le_left _ _)
  have hle3 : m ≤ l3 :=
    hm ▸ le_trans (min_le_right _ _)
      (le_trans (min_le_right _ _) (min_le_left _ _))
  have hle4 : m ≤ l4 :=
    hm ▸ le_trans (min_le_right _ _)
      (le_trans (min_le_right _ _) (min_le_right _ _))
  have hmem : ∀ c ∈ [l1, l2, l3, l4], m ≤ c := by
    intro c hc
    rcases List.mem_cons.mp hc with rfl | hc
    · exact hle1
    rcases List.mem_cons.mp hc with rfl | hc
    · exact hle2
    rcases List.mem_cons.mp hc with rfl | hc
    · exact hle3
    rcases List.mem_cons.mp hc with rfl | hc
    · exact hle4
    · simp at hc
  by_cases h1 : m = l1
  · rw [hbn, if_pos h1]
    refine ⟨by omega, by simpa using h1.symm, hmem, ?_⟩
    intro j hj
    exact absurd hj (Nat.not_lt_zero j)
  by_cases h2 : m = l2
  · rw [hbn, if_neg h1, if_pos h2]
    refine ⟨by omega, by simpa using h2.symm, hmem, ?_⟩
    intro j hj
    have hj0 : j = 0 := by omega
    subst hj0
    simpa using lt_of_le_of_ne hle1 h1
  by_cases h3 : m = l3
  · rw [hbn, if_neg h1, if_neg h2, if_pos h3]
    refine ⟨by omega, by simpa using h3.symm, hmem, ?_⟩
    intro j hj
    have hj01 : j = 0 ∨ j = 1 := by omega
    rcases hj01 with rfl | rfl
    · simpa using lt_of_le_of_ne hle1 h1
    · simpa using lt_of_le_of_ne hle2 h2
  · have h4 : m = l4 := by
      rcases min_choice l1 (min l2 (min l3 l4)) with h | h
      · exact absurd (hm.trans h) h1
      rcases min_choice l2 (min l3 l4) with h' | h'
      · exact absurd (hm.trans (h.trans h')) h2
      rcases min_choice l3 l4 with h'' | h''
      · exact absurd (hm.trans (h.trans (h'.trans h''))) h3
      · exact hm.trans (h.trans (h'.trans h''))
    rw [hbn, if_neg h1, if_neg h2, if_neg h3]
    refine ⟨by omega, by simpa using h4.symm, hmem, ?_⟩
    intro j hj
    have hj012 : j = 0 ∨ j = 1 ∨ j = 2 := by omega
    rcases hj012 with rfl | rfl | rfl
    · simpa using lt_of_le_of_ne hle1 h1
    · simpa using lt_of_le_of_ne hle2 h2
    · simpa using lt_of_le_of_ne hle3 h3

/-! Inversion lemmas: what membership in a finder's output means. -/

theorem mem_findTriangles {pairs : List MarketPair} {base : String} {fee : ℚ}
    {o : Opportunity} :
    o ∈ findTriangles pairs base fee ↔
      ∃ bridge e, idxGet pairs base "IRT" = some bridge ∧
        e ∈ buildAssetEntries pairs base ∧
        (triCW bridge base fee e = some o ∨ triCCW bridge base fee e = some o) := by
  unfold findTriangles
  cases hidx : idxGet pairs base "IRT" with
  | none => simp [hidx]
  | some bridge =>
    simp only [List.mem_flatMap, List.mem_append, Option.mem_toList,
      Option.mem_def, hidx]
    constructor
    · rintro ⟨e, he, h | h⟩
      · exact ⟨bridge, e, rfl, he, .inl h⟩
      · exact ⟨bridge, e, rfl, he, .inr h⟩
    · rintro ⟨b, e, hb, he, h | h⟩
      · cases hb
        exact ⟨e, he, .inl h⟩
      · cases hb
        exact ⟨e, he, .inr h⟩

theorem mem_findCrossPairs {pairs : List MarketPair} {base : String} {fee : ℚ}
    {n : ℕ} {o : Opportunity} (h : o ∈ findCrossPairs pairs base fee n) :
    ∃ s b, crossCand base fee s b = some o := by
  unfold findCrossPairs at h
  have h1 := List.mem_of_mem_take h
  rw [mem_sortByKeyDesc] at h1
  rw [List.mem_flatMap] at h1
  obtain ⟨s, _, h2⟩ := h1
  rw [List.mem_filterMap] at h2
  obtain ⟨b, _, h3⟩ := h2
  exact ⟨s, b, h3⟩

/-- Package the argmin facts into `BottleneckOk`. -/
theorem bottleneckOk_mk (caps : List ℚ) (bn : ℕ) (m : ℚ)
    (hlen : bn < caps.length) (hgd : caps.getD bn 0 = m)
    (hge : ∀ c ∈ caps, m ≤ c) (hjlt : ∀ j, j < bn → m < caps.getD j 0)
    (o : Opportunity) (hc : convCaps o = caps) (hb : o.bottleneckLeg = bn) :
    BottleneckOk o := by
  unfold BottleneckOk
  rw [hc, hb, hgd]
  exact ⟨hlen, hge, hjlt⟩

/-- Facts holding of every opportunity `triCW` emits. -/
theorem triCW_some {bridge : MarketPair} {base : String} {fee : ℚ}
    {e : AssetEntry} {o : Opportunity} (h : triCW bridge base fee e = some o) :
    o.type = .triangle ∧ o.direction = .cw ∧ o.feePct = 3 * fee ∧
      o.netPct = o.grossPct - o.feePct ∧ BottleneckOk o ∧
      o.grossPct = (o.rate - 1) * 100 ∧
      o.expectedProfitIRT = o.netPct / 100 * o.maxVolumeIRT := by
  simp only [triCW] at h
  split at h
  · injection h with h
    subst h
    refine ⟨rfl, rfl, rfl, rfl, ?_, rfl, rfl⟩
    obtain ⟨hlen, hgd, hge, hjlt⟩ := argmin3 e.irt.bestAskQty e.base.bestBidQty
      (cwL3 bridge e) (cwMaxX bridge e)
      (if cwMaxX bridge e = e.irt.bestAskQty then 0
       else if cwMaxX bridge e = e.base.bestBidQty then 1 else 2) rfl rfl
    exact bottleneckOk_mk [e.irt.bestAskQty, e.base.bestBidQty, cwL3 bridge e]
      _ _ hlen hgd hge hjlt _ rfl rfl
  · exact Option.noConfusion h

/-- Facts holding of every opportunity `triCCW` emits. -/
theorem triCCW_some {bridge : MarketPair} {base : String} {fee : ℚ}
    {e : AssetEntry} {o : Opportunity} (h : triCCW bridge base fee e = some o) :
    o.type = .triangle ∧ o.direction = .ccw ∧ o.feePct = 3 * fee ∧
      o.netPct = o.grossPct - o.feePct ∧ BottleneckOk o ∧
      o.grossPct = (o.rate - 1) * 100 ∧
      o.expectedProfitIRT = o.netPct / 100 * o.maxVolumeIRT := by
  simp only [triCCW] at h
  split at h
  · injection h with h
    subst h
    refine ⟨rfl, rfl, rfl, rfl, ?_, rfl, rfl⟩
    obtain ⟨hlen, hgd, hge, hjlt⟩ := argmin3 (ccwL1 bridge e) e.base.bestAskQty
      e.irt.bestBidQty (ccwMaxX bridge e)
      (if ccwMaxX bridge e = ccwL1 bridge e then 0
       else if ccwMaxX bridge e = e.base.bestAskQty then 1 else 2) rfl rfl
    exact bottleneckOk_mk [ccwL1 bridge e, e.base.bestAskQty, e.irt.bestBidQty]
      _ _ hlen hgd hge hjlt _ rfl rfl
  · exact Option.noConfusion h

/-- Facts holding of every opportunity `crossCand` emits. -/
theorem crossCand_some {base : String} {fee : ℚ} {s b : RatioEntry}
    {o : Opportunity} (h : crossCand base fee s b = some o) :
    o.type = .cross ∧ o.direction = .cross ∧ o.feePct = 4 * fee ∧
      o.netPct = o.grossPct - o.feePct ∧ BottleneckOk o ∧
      o.grossPct = (o.rate - 1) * 100 ∧
      o.expectedProfitIRT = o.netPct / 100 * o.maxVolumeIRT := by
  simp only [crossCand] at h
  split at h
  · exact Option.noConfusion h
  split at h
  · exact Option.noConfusion h
  split at h
  · injection h with h
    subst h
    refine ⟨rfl, rfl, rfl, rfl, ?_, rfl, rfl⟩
    obtain ⟨hlen, hgd, hge, hjlt⟩ := argmin4 s.irt.bestAskQty s.base.bestBidQty
      (crossL3 s b) (crossL4 s b) (crossMaxX s b)
      (if crossMaxX s b = s.irt.bestAskQty then 0
       else if crossMaxX s b = s.base.bestBidQty then 1
       else if crossMaxX s b = crossL3 s b then 2 else 3) rfl rfl
    exact bottleneckOk_mk
      [s.irt.bestAskQty, s.base.bestBidQty, crossL3 s b, crossL4 s b]
      _ _ hlen hgd hge hjlt _ rfl rfl
  · exact Option.noConfusion h

/-! Helper lemmas about the normalizer and the bridge index. -/

theorem val_pos {n : JsNum} (h : n.isPosFinite = true) : 0 < n.val := by
  cases n with
  | num q => simpa [JsNum.isPosFinite, JsNum.val] using h
  | nan => simp [JsNum.isPosFinite] at h
  | inf => simp [JsNum.isPosFinite] at h
  | neginf => simp [JsNum.isPosFinite] at h

theorem clampQty_nonneg (n : JsNum) : 0 ≤ clampQty n := by
  cases n with
  | num q =>
    show (0 : ℚ) ≤ if 0 < q then q else 0
    by_cases h : 0 < q
    · rw [if_pos h]
      exact le_of_lt h
    · rw [if_neg h]
  | nan => exact le_refl (0 : ℚ)
  | inf => exact le_refl (0 : ℚ)
  | neginf => exact le_refl (0 : ℚ)

theorem parseSymbol_quote {s : String} {r : String × String}
    (h : parseSymbol s = some r) : r.2 = "USDT" ∨ r.2 = "IRT" := by
  unfold parseSymbol at h
  split at h
  · injection h with h
    subst h
    exact .inl rfl
  split at h
  · injection h with h
    subst h
    exact .inr rfl
  · exact Option.noConfusion h

theorem parseOnePair_some {k : String} {entry : Option RawEntry} {p : MarketPair}
    (h : parseOnePair k entry = some p) :
    0 < p.bestBid ∧ 0 < p.bestAsk ∧ 0 ≤ p.bestBidQty ∧ 0 ≤ p.bestAskQty ∧
      (p.quote = "USDT" ∨ p.quote = "IRT") ∧
      ∃ e bb bbq ba baq, entry = some e ∧
        bestRow (firstRow e.bids) = some (bb, bbq) ∧
        bestRow (firstRow e.asks) = some (ba, baq) ∧
        bb.isPosFinite = true ∧ ba.isPosFinite = true ∧
        p.bestBid = bb.val ∧ p.bestBidQty = clampQty bbq ∧
        p.bestAsk = ba.val ∧ p.bestAskQty = clampQty baq := by
  unfold parseOnePair at h
  split at h
  · exact Option.noConfusion h
  split at h
  · exact Option.noConfusion h
  rename_i e
  split at h
  · exact Option.noConfusion h
  rename_i pr asset quote hsym
  split at h
  · rename_i bb bbq ba baq hbids hasks
    split at h
    · rename_i hfin
      rw [Bool.and_eq_true] at hfin
      injection h with h
      subst h
      refine ⟨val_pos hfin.1, val_pos hfin.2, clampQty_nonneg _,
        clampQty_nonneg _, ?_, e, bb, bbq, ba, baq, rfl, hbids, hasks,
        hfin.1, hfin.2, rfl, rfl, rfl, rfl⟩
      exact parseSymbol_quote hsym
    · exact Option.noConfusion h
  · exact Option.noConfusion h

theorem mem_parseAllPairs {data : List (String × Option RawEntry)}
    {p : MarketPair} (h : p ∈ parseAllPairs data) :
    ∃ kv ∈ data, parseOnePair kv.1 kv.2 = some p := by
  unfold parseAllPairs at h
  rw [List.mem_filterMap] at h
  exact h

theorem quote_of_mem_parseAllPairs {data : List (String × Option RawEntry)}
    {p : MarketPair} (h : p ∈ parseAllPairs data) :
    p.quote = "USDT" ∨ p.quote = "IRT" := by
  obtain ⟨kv, _, hkv⟩ := mem_parseAllPairs h
  exact (parseOnePair_some hkv).2.2.2.2.1

theorem idxGet_eq_none {pairs : List MarketPair} {a q : String}
    (h : ∀ p ∈ pairs, ¬(p.asset = a ∧ p.quote = q)) :
    idxGet pairs a q = none := by
  unfold idxGet
  have hf : pairs.filter (fun p => p.asset == a && p.quote == q) = [] := by
    rw [List.filter_eq_nil_iff]
    intro p hp
    simp only [Bool.and_eq_true, beq_iff_eq]
    exact fun hc => h p hp hc
  rw [hf]
  rfl

theorem idxGet_isSome {pairs : List MarketPair} {a q : String}
    {bp : MarketPair} (h : idxGet pairs a q = some bp) :
    bp ∈ pairs ∧ bp.asset = a ∧ bp.quote = q := by
  unfold idxGet at h
  have hmem := List.mem_of_getLast?_eq_some h
  rw [List.mem_filter] at hmem
  obtain ⟨h1, h2⟩ := hmem
  simp only [Bool.and_eq_true, beq_iff_eq] at h2
  exact ⟨h1, h2⟩

theorem buildAssetEntries_eq_nil {pairs : List MarketPair} {base : String}
    (h : ∀ p ∈ pairs, p.quote ≠ base) :
    buildAssetEntries pairs base = [] := by
  unfold buildAssetEntries
  rw [List.filterMap_eq_nil_iff]
  intro p hp
  split
  · cases hidx : idxGet pairs p.asset base with
    | none => rfl
    | some bp =>
      obtain ⟨hmem, _, hq⟩ := idxGet_isSome hidx
      exact absurd hq (h bp hmem)
  · rfl

/-! Counting helper lemmas. -/

theorem length_flatMap_le_two {α β : Type} (f : α → List β)
    (h : ∀ a, (f a).length ≤ 2) :
    ∀ l : List α, (l.flatMap f).length ≤ 2 * l.length
  | [] => le_refl 0
  | a :: l => by
    rw [List.flatMap_cons, List.length_append, List.length_cons]
    have := length_flatMap_le_two f h l
    have := h a
    omega

theorem length_filterMap_le_filter {α β : Type} (f : α → Option β)
    (p : α → Bool) (h : ∀ a, (f a).isSome = true → p a = true) :
    ∀ l : List α, (l.filterMap f).length ≤ (l.filter p).length
  | [] => le_refl 0
  | a :: l => by
    have ih := length_filterMap_le_filter f p h l
    cases hfa : f a with
    | none =>
      simp only [List.filterMap_cons, hfa, List.filter_cons]
      by_cases hpa : p a = true
      · rw [if_pos hpa, List.length_cons]
        omega
      · rw [if_neg hpa]
        exact ih
    | some b =>
      have hpa : p a = true := h a (by rw [hfa]; rfl)
      simp only [List.filterMap_cons, hfa, List.filter_cons, if_pos hpa,
        List.length_cons]
      omega

theorem nodup_fst_of_snd_const {α β : Type} (c : β) :
    ∀ l : List (α × β), (∀ x ∈ l, x.2 = c) → l.Nodup →
      (l.map Prod.fst).Nodup
  | [], _, _ => List.nodup_nil
  | x :: l, hc, hn => by
    rw [List.map_cons, List.nodup_cons]
    rw [List.nodup_cons] at hn
    refine ⟨?_, nodup_fst_of_snd_const c l (fun y hy => hc y (.tail _ hy)) hn.2⟩
    intro hx
    rw [List.mem_map] at hx
    obtain ⟨y, hy, hxy⟩ := hx
    have hyx : y = x := by
      have h1 : y.2 = c := hc y (.tail _ hy)
      have h2 : x.2 = c := hc x (.head _)
      cases x
      cases y
      simp only at hxy h1 h2
      simp [hxy, h1, h2]
    exact hn.1 (hyx ▸ hy)

/-- The head of a nonempty list is a member (used to discharge concrete
    membership hypotheses without scanning the whole list). -/
theorem getD_zero_mem {α : Type} (l : List α) (d : α) (h : l ≠ []) :
    l.getD 0 d ∈ l := by
  cases l with
  | nil => exact absurd rfl h
  | cons a t => exact List.mem_cons_self a t

/-! Concrete data used to instantiate the claims. -/

def pXIRT : MarketPair :=
  { symbol := "XIRT", asset := "X", quote := "IRT", bestBid := 990,
    bestBidQty := 10, bestAsk := 1000, bestAskQty := 10 }

def pXUSDT : MarketPair :=
  { symbol := "XUSDT", asset := "X", quote := "USDT", bestBid := 21/20,
    bestBidQty := 10, bestAsk := 53/50, bestAskQty := 10 }

def pUSDTIRT : MarketPair :=
  { symbol := "USDTIRT", asset := "USDT", quote := "IRT", bestBid := 990,
    bestBidQty := 1000, bestAsk := 1000, bestAskQty := 1000 }

def pYIRT : MarketPair :=
  { symbol := "YIRT", asset := "Y", quote := "IRT", bestBid := 990,
    bestBidQty := 10, bestAsk := 1000, bestAskQty := 10 }

def pYUSDT : MarketPair :=
  { symbol := "YUSDT", asset := "Y", quote := "USDT", bestBid := 21/20,
    bestBidQty := 10, bestAsk := 53/50, bestAskQty := 10 }

/-- The spec's end-to-end example snapshot (bridge depth 1000 on both sides). -/
def examplePairs : List MarketPair := [pXIRT, pXUSDT, pUSDTIRT]

/-- Two bridgeable assets but no `USDT:IRT` pair at all. -/
def noBridgePairs : List MarketPair := [pXIRT, pXUSDT, pYIRT, pYUSDT]

/-! The claims. -/

/-- C1: for every Opportunity returned by `findTriangles`, `findCrossPairs`,
or `findAllOpportunities`, the fee accounting is exact: `feePct` equals
`3 × perTradeFeePct` for type `triangle` and `4 × perTradeFeePct` for type
`cross`, and `netPct = grossPct - feePct`. -/
theorem C1_fee_accounting (pairs : List MarketPair) (base : String) (fee : ℚ)
    (n : ℕ) (o : Opportunity) :
    (o ∈ findTriangles pairs base fee →
      o.type = .triangle ∧ o.feePct = 3 * fee ∧
        o.netPct = o.grossPct - o.feePct) ∧
    (o ∈ findCrossPairs pairs base fee n →
      o.type = .cross ∧ o.feePct = 4 * fee ∧
        o.netPct = o.grossPct - o.feePct) ∧
    (o ∈ findAllOpportunities pairs base fee →
      o.netPct = o.grossPct - o.feePct ∧
        (o.type = .triangle → o.feePct = 3 * fee) ∧
        (o.type = .cross → o.feePct = 4 * fee)) := by
  have htri : ∀ o' : Opportunity, o' ∈ findTriangles pairs base fee →
      o'.type = .triangle ∧ o'.feePct = 3 * fee ∧
        o'.netPct = o'.grossPct - o'.feePct := by
    intro o' ho
    obtain ⟨bridge, e, -, -, h | h⟩ := mem_findTriangles.mp ho
    · obtain ⟨h1, -, h3, h4, -⟩ := triCW_some h
      exact ⟨h1, h3, h4⟩
    · obtain ⟨h1, -, h3, h4, -⟩ := triCCW_some h
      exact ⟨h1, h3, h4⟩
  have hcr : ∀ (m : ℕ) (o' : Opportunity), o' ∈ findCrossPairs pairs base fee m →
      o'.type = .cross ∧ o'.feePct = 4 * fee ∧
        o'.netPct = o'.grossPct - o'.feePct := by
    intro m o' ho
    obtain ⟨s, b, h⟩ := mem_findCrossPairs ho
    obtain ⟨h1, -, h3, h4, -⟩ := crossCand_some h
    exact ⟨h1, h3, h4⟩
  refine ⟨htri o, hcr n o, ?_⟩
  intro ho
  unfold findAllOpportunities at ho
  rw [mem_sortByKeyDesc, List.mem_append] at ho
  rcases ho with h | h
  · obtain ⟨h1, h2, h3⟩ := htri o h
    refine ⟨h3, fun _ => h2, fun hc => ?_⟩
    rw [h1] at hc
    exact StrategyType.noConfusion hc
  · obtain ⟨h1, h2, h3⟩ := hcr 200 o h
    refine ⟨h3, fun hc => ?_, fun _ => h2⟩
    rw [h1] at hc
    exact StrategyType.noConfusion hc

/-- C1 witness: the forward triangle of the example snapshot. -/
theorem C1_fee_accounting_witness :
    (findTriangles examplePairs "USDT" (7/20)).getD 0 default ∈
        findTriangles examplePairs "USDT" (7/20) ∧
      ((findTriangles examplePairs "USDT" (7/20)).getD 0 default).feePct =
        3 * (7/20) :=
  ⟨getD_zero_mem _ _ (by with_unfolding_all decide),
   ((C1_fee_accounting examplePairs "USDT" (7/20) 200
      ((findTriangles examplePairs "USDT" (7/20)).getD 0 default)).1
      (getD_zero_mem _ _ (by with_unfolding_all decide))).2.1⟩

/-- C3: `findAllOpportunities` returns exactly the concatenation of the
triangle and cross-pair candidates, sorted by descending `netPct`, stably for
exact ties, with no truncation. -/
theorem C3_aggregator (pairs : List MarketPair) (base : String) (fee : ℚ) :
    List.Perm (findAllOpportunities pairs base fee)
      (findTriangles pairs base fee ++ findCrossPairs pairs base fee) ∧
    (findAllOpportunities pairs base fee).length =
      (findTriangles pairs base fee).length +
        (findCrossPairs pairs base fee).length ∧
    (findAllOpportunities pairs base fee).Pairwise
      (fun a b => b.netPct ≤ a.netPct) ∧
    (∀ q : ℚ,
      (findAllOpportunities pairs base fee).filter
          (fun o => decide (o.netPct = q)) =
        (findTriangles pairs base fee ++ findCrossPairs pairs base fee).filter
          (fun o => decide (o.netPct = q))) := by
  unfold findAllOpportunities
  refine ⟨perm_sortByKeyDesc _ _, ?_, pairwise_sortByKeyDesc _ _,
    fun q => filter_sortByKeyDesc _ q _⟩
  rw [(perm_sortByKeyDesc _ _).length_eq, List.length_append]

/-- C4: every emitted Opportunity's `bottleneckLeg` indexes a leg whose
converted capacity equals the generating minimum, with exact ties resolved to
the lowest leg index. -/
theorem C4_bottleneck (pairs : List MarketPair) (base : String) (fee : ℚ)
    (n : ℕ) (o : Opportunity) :
    (o ∈ findTriangles pairs base fee → BottleneckOk o) ∧
    (o ∈ findCrossPairs pairs base fee n → BottleneckOk o) ∧
    (o ∈ findAllOpportunities pairs base fee → BottleneckOk o) := by
  have htri : ∀ o' : Opportunity, o' ∈ findTriangles pairs base fee →
      BottleneckOk o' := by
    intro o' ho
    obtain ⟨bridge, e, -, -, h | h⟩ := mem_findTriangles.mp ho
    · exact (triCW_some h).2.2.2.2.1
    · exact (triCCW_some h).2.2.2.2.1
  have hcr : ∀ (m : ℕ) (o' : Opportunity), o' ∈ findCrossPairs pairs base fee m →
      BottleneckOk o' := by
    intro m o' ho
    obtain ⟨s, b, h⟩ := mem_findCrossPairs ho
    exact (crossCand_some h).2.2.2.2.1
  refine ⟨htri o, hcr n o, ?_⟩
  intro ho
  unfold findAllOpportunities at ho
  rw [mem_sortByKeyDesc, List.mem_append] at ho
  rcases ho with h | h
  · exact htri o h
  · exact hcr 200 o h

/-- C4 witness: the bottleneck contract holds of the example's head result. -/
theorem C4_bottleneck_witness :
    (findTriangles examplePairs "USDT" (7/20)).getD 0 default ∈
        findTriangles examplePairs "USDT" (7/20) ∧
      BottleneckOk ((findTriangles examplePairs "USDT" (7/20)).getD 0 default) :=
  ⟨getD_zero_mem _ _ (by with_unfolding_all decide),
   (C4_bottleneck examplePairs "USDT" (7/20) 200
      ((findTriangles examplePairs "USDT" (7/20)).getD 0 default)).1
      (getD_zero_mem _ _ (by with_unfolding_all decide))⟩

/-- C2 counterexample: a snapshot with two bridgeable assets but no
`USDT:IRT` pair. `findCrossPairs` still returns opportunities (it never reads
the bridge:IRT pair), so the claim that both finders return the empty list is
false. -/
theorem C2_counterexample :
    (∀ p ∈ noBridgePairs, ¬(p.asset = "USDT" ∧ p.quote = "IRT")) ∧
      findCrossPairs noBridgePairs "USDT" (7/20) 200 ≠ [] := by
  constructor
  · decide
  · with_unfolding_all decide

/-- C2 (amended): if the pair list has no pair with asset `B` quoted in IRT,
`findTriangles` returns the empty list; `findCrossPairs` carries no such
guarantee. -/
theorem C2_amended (pairs : List MarketPair) (B : String) (fee : ℚ)
    (h : ∀ p ∈ pairs, ¬(p.asset = B ∧ p.quote = "IRT")) :
    findTriangles pairs B fee = [] := by
  unfold findTriangles
  rw [idxGet_eq_none h]

/-- C2 witness: the amended statement at the concrete no-bridge snapshot. -/
theorem C2_amended_witness :
    (∀ p ∈ noBridgePairs, ¬(p.asset = "USDT" ∧ p.quote = "IRT")) ∧
      findTriangles noBridgePairs "USDT" (7/20) = [] :=
  ⟨by decide, C2_amended noBridgePairs "USDT" (7/20) (by decide)⟩

/-- Parameterized suffix rule as the claim states it: quote is the local
currency for an `IRT` suffix, and the configured bridge ticker for a suffix
equal to that ticker. Written from the claim's words, to compare with the
source's `parseSymbol`. -/
def specParseSymbol (bridgeTicker : String) (symbol : String) :
    Option (String × String) :=
  if symbol.data.length > bridgeTicker.data.length &&
      bridgeTicker.data.isSuffixOf symbol.data then
    some (String.mk (symbol.data.take
      (symbol.data.length - bridgeTicker.data.length)), bridgeTicker)
  else if symbol.data.length > 3 && "IRT".data.isSuffixOf symbol.data then
    some (String.mk (symbol.data.take (symbol.data.length - 3)), "IRT")
  else none

/-- C5 counterexample: with bridge ticker "ABCD" the claimed parameterized
rule parses "XABCD" as (X, ABCD), but the source normalizer, which hardcodes
the USDT suffix and takes no bridge parameter, skips that symbol. -/
theorem C5_counterexample :
    specParseSymbol "ABCD" "XABCD" = some ("X", "ABCD") ∧
      parseSymbol "XABCD" = none := by
  constructor
  · decide
  · decide

/-- C5 (amended): the normalizer's suffix rule is the claimed rule with the
bridge ticker fixed to "USDT" (it does not consult the configured bridge
currency), and a symbol matching neither suffix is silently skipped. -/
theorem C5_amended :
    (∀ s, parseSymbol s = specParseSymbol "USDT" s) ∧
    (∀ (k : String) (entry : Option RawEntry), parseSymbol k = none →
      parseOnePair k entry = none) := by
  constructor
  · intro s
    rfl
  · intro k entry h
    unfold parseOnePair
    by_cases hk : k = "status"
    · rw [if_pos hk]
    · rw [if_neg hk]
      cases entry with
      | none => rfl
      | some e => rw [h]

/-- C5 witness: the amended statement at concrete symbols. -/
theorem C5_amended_witness :
    parseSymbol "BTCEUR" = none ∧
      parseOnePair "BTCEUR" (some { bids := none, asks := none }) = none :=
  ⟨by decide, C5_amended.2 "BTCEUR" (some { bids := none, asks := none })
    (by decide)⟩

/-- A zero-depth variant of the example's X/IRT pair (`bestAskQty = 0`). -/
def pXIRT0 : MarketPair := { pXIRT with bestAskQty := 0 }

/-- The example's asset entry for X. -/
def eX : AssetEntry := { asset := "X", irt := pXIRT, base := pXUSDT }

/-- The example's asset entry for X with zero entry-leg depth. -/
def eX0 : AssetEntry := { asset := "X", irt := pXIRT0, base := pXUSDT }

/-- C6: a triangle candidate is emitted iff its rate is finite and its
executable volume is strictly positive (so emission is independent of the
sign of `netPct`), and a cycle whose entry pair has `bestAskQty = 0` yields
volume 0 and is excluded. -/
theorem C6_emission_filter (bridge : MarketPair) (base : String) (fee : ℚ)
    (e : AssetEntry) :
    ((triCW bridge base fee e).isSome ↔
      e.irt.bestAsk ≠ 0 ∧ 0 < cwVol bridge e) ∧
    ((triCCW bridge base fee e).isSome ↔
      e.base.bestAsk * bridge.bestAsk ≠ 0 ∧ 0 < ccwVol bridge e) ∧
    (0 ≤ e.base.bestBidQty → 0 ≤ bridge.bestBidQty →
      e.irt.bestAskQty = 0 → triCW bridge base fee e = none) ∧
    (0 ≤ e.base.bestAskQty → 0 ≤ e.irt.bestBidQty →
      bridge.bestAskQty = 0 → triCCW bridge base fee e = none) := by
  refine ⟨?_, ?_, ?_, ?_⟩
  · simp only [triCW]
    by_cases h : e.irt.bestAsk ≠ 0 ∧ 0 < cwVol bridge e
    · simp [h]
    · simp [h]
  · simp only [triCCW]
    by_cases h : e.base.bestAsk * bridge.bestAsk ≠ 0 ∧ 0 < ccwVol bridge e
    · simp [h]
    · simp [h]
  · intro h1 h2 h0
    have hL3 : 0 ≤ cwL3 bridge e := by
      unfold cwL3
      split
      · exact div_nonneg h2 (le_of_lt (by assumption))
      · exact le_refl 0
    have hmax : cwMaxX bridge e = 0 := by
      unfold cwMaxX
      rw [h0]
      exact min_eq_left (le_min h1 hL3)
    have hvol : cwVol bridge e = 0 := by rw [cwVol, hmax, zero_mul]
    simp [triCW, hvol]
  · intro h1 h2 h0
    have hL1 : ccwL1 bridge e = 0 := by
      unfold ccwL1
      rw [h0]
      split
      · exact zero_div _
      · rfl
    have hmax : ccwMaxX bridge e = 0 := by
      unfold ccwMaxX
      rw [hL1]
      exact min_eq_left (le_min h1 h2)
    have hvol : ccwVol bridge e = 0 := by rw [ccwVol, hmax, zero_mul, zero_mul]
    simp [triCCW, hvol]

/-- C6 witness: with zero entry depth the CW candidate is dropped, while the
CCW candidate of the full-depth entry is emitted although its netPct is
negative. -/
theorem C6_emission_filter_witness :
    ((0:ℚ) ≤ pXUSDT.bestBidQty ∧ (0:ℚ) ≤ pUSDTIRT.bestBidQty ∧
        eX0.irt.bestAskQty = 0) ∧
      triCW pUSDTIRT "USDT" (7/20) eX0 = none ∧
      (triCCW pUSDTIRT "USDT" (7/20) eX).isSome := by
  refine ⟨⟨by decide, by decide, by decide⟩, ?_, ?_⟩
  · exact (C6_emission_filter pUSDTIRT "USDT" (7/20) eX0).2.2.1
      (by decide) (by decide) (by decide)
  · exact (C6_emission_filter pUSDTIRT "USDT" (7/20) eX).2.1.mpr
      ⟨by with_unfolding_all decide, by with_unfolding_all decide⟩

/-- The assets that have both an IRT-quoted pair and a bridge-quoted pair. -/
def bridgeableAssets (pairs : List MarketPair) (base : String) : List String :=
  ((pairs.filter (fun p =>
    p.quote == "IRT" && (idxGet pairs p.asset base).isSome)).map
      MarketPair.asset).dedup

/-- C7: with `N` bridgeable assets, `findTriangles` returns at most `2N`
opportunities, and `findCrossPairs` returns at most `maxResults`
opportunities sorted by descending netPct. -/
theorem C7_output_bounds (pairs : List MarketPair) (base : String) (fee : ℚ)
    (n : ℕ) (hkeys : (pairs.map (fun p => (p.asset, p.quote))).Nodup) :
    (findTriangles pairs base fee).length ≤
      2 * (bridgeableAssets pairs base).length ∧
    (findCrossPairs pairs base fee n).length ≤ n ∧
    (findCrossPairs pairs base fee n).Pairwise
      (fun a b => b.netPct ≤ a.netPct) := by
  refine ⟨?_, ?_, ?_⟩
  · have h1 : (findTriangles pairs base fee).length ≤
        2 * (buildAssetEntries pairs base).length := by
      unfold findTriangles
      cases idxGet pairs base "IRT" with
      | none => simp
      | some bridge =>
        apply length_flatMap_le_two
        intro e
        rw [List.length_append]
        have hcw : (triCW bridge base fee e).toList.length ≤ 1 := by
          cases triCW bridge base fee e
          · exact Nat.zero_le 1
          · exact le_refl 1
        have hccw : (triCCW bridge base fee e).toList.length ≤ 1 := by
          cases triCCW bridge base fee e
          · exact Nat.zero_le 1
          · exact le_refl 1
        omega
    have h2 : (buildAssetEntries pairs base).length ≤
        (pairs.filter (fun p =>
          p.quote == "IRT" && (idxGet pairs p.asset base).isSome)).length := by
      unfold buildAssetEntries
      apply length_filterMap_le_filter
      intro p hp
      split at hp
      · rename_i hcond
        simp only [Bool.and_eq_true, beq_iff_eq]
        refine ⟨hcond.1, ?_⟩
        cases hidx : idxGet pairs p.asset base with
        | none =>
          rw [hidx] at hp
          simp at hp
        | some bp => rfl
      · simp at hp
    have h3 : (bridgeableAssets pairs base).length =
        (pairs.filter (fun p =>
          p.quote == "IRT" && (idxGet pairs p.asset base).isSome)).length := by
      unfold bridgeableAssets
      have hsub : ((pairs.filter (fun p =>
          p.quote == "IRT" && (idxGet pairs p.asset base).isSome)).map
            (fun p => (p.asset, p.quote))).Nodup :=
        hkeys.sublist ((List.filter_sublist _).map _)
      have hconst : ∀ x ∈ (pairs.filter (fun p =>
          p.quote == "IRT" && (idxGet pairs p.asset base).isSome)).map
            (fun p => (p.asset, p.quote)), x.2 = "IRT" := by
        intro x hx
        rw [List.mem_map] at hx
        obtain ⟨p, hp, rfl⟩ := hx
        rw [List.mem_filter] at hp
        have := hp.2
        simp only [Bool.and_eq_true, beq_iff_eq] at this
        exact this.1
      have hnd := nodup_fst_of_snd_const "IRT" _ hconst hsub
      rw [List.map_map] at hnd
      have hfun : (Prod.fst ∘ fun p : MarketPair => (p.asset, p.quote)) =
          MarketPair.asset := by
        funext p
        rfl
      rw [hfun] at hnd
      rw [List.dedup_eq_self.mpr hnd, List.length_map]
    omega
  · simp only [findCrossPairs]
    exact List.length_take_le _ _
  · simp only [findCrossPairs]
    exact List.Pairwise.sublist (List.take_sublist _ _)
      (pairwise_sortByKeyDesc _ _)

/-- C7 witness: the bounds at the example snapshot. -/
theorem C7_output_bounds_witness :
    (examplePairs.map (fun p => (p.asset, p.quote))).Nodup ∧
      (findTriangles examplePairs "USDT" (7/20)).length ≤
        2 * (bridgeableAssets examplePairs "USDT").length :=
  ⟨by decide,
   (C7_output_bounds examplePairs "USDT" (7/20) 200 (by decide)).1⟩

/-- C8: every MarketPair returned by parseAllPairs has a positive (finite)
best bid and ask and non-negative quantities equal to the clamped source
values; entries with missing or empty bid/ask arrays, or a non-positive or
non-finite best price, are skipped entirely. -/
theorem C8_normalizer_invariants :
    (∀ (data : List (String × Option RawEntry)) (p : MarketPair),
      p ∈ parseAllPairs data →
        0 < p.bestBid ∧ 0 < p.bestAsk ∧ 0 ≤ p.bestBidQty ∧ 0 ≤ p.bestAskQty) ∧
    (∀ (data : List (String × Option RawEntry)) (p : MarketPair),
      p ∈ parseAllPairs data →
        ∃ kv ∈ data, ∃ e bb bbq ba baq, kv.2 = some e ∧
          bestRow (firstRow e.bids) = some (bb, bbq) ∧
          bestRow (firstRow e.asks) = some (ba, baq) ∧
          bb.isPosFinite = true ∧ ba.isPosFinite = true ∧
          p.bestBid = bb.val ∧ p.bestBidQty = clampQty bbq ∧
          p.bestAsk = ba.val ∧ p.bestAskQty = clampQty baq) ∧
    (∀ (k : String) (e : RawEntry),
      firstRow e.bids = none ∨ firstRow e.asks = none →
        parseOnePair k (some e) = none) ∧
    (∀ (k : String) (e : RawEntry) (bb bbq ba baq : JsNum),
      bestRow (firstRow e.bids) = some (bb, bbq) →
      bestRow (firstRow e.asks) = some (ba, baq) →
      (bb.isPosFinite = false ∨ ba.isPosFinite = false) →
        parseOnePair k (some e) = none) := by
  refine ⟨?_, ?_, ?_, ?_⟩
  · intro data p hp
    obtain ⟨kv, -, hkv⟩ := mem_parseAllPairs hp
    have h := parseOnePair_some hkv
    exact ⟨h.1, h.2.1, h.2.2.1, h.2.2.2.1⟩
  · intro data p hp
    obtain ⟨kv, hkvmem, hkv⟩ := mem_parseAllPairs hp
    obtain ⟨e, bb, bbq, ba, baq, he, hb, ha, hf1, hf2, e1, e2, e3, e4⟩ :=
      (parseOnePair_some hkv).2.2.2.2.2
    exact ⟨kv, hkvmem, e, bb, bbq, ba, baq, he, hb, ha, hf1, hf2,
      e1, e2, e3, e4⟩
  · intro k e hor
    cases hpo : parseOnePair k (some e) with
    | none => rfl
    | some p =>
      exfalso
      obtain ⟨e', bb, bbq, ba, baq, he', hb, ha, -, -, -⟩ :=
        (parseOnePair_some hpo).2.2.2.2.2
      injection he' with he'
      subst he'
      rcases hor with h | h
      · rw [h] at hb
        simp [bestRow] at hb
      · rw [h] at ha
        simp [bestRow] at ha
  · intro k e bb bbq ba baq hb ha hor
    cases hpo : parseOnePair k (some e) with
    | none => rfl
    | some p =>
      exfalso
      obtain ⟨e', bb', bbq', ba', baq', he', hb', ha', hf1, hf2, -⟩ :=
        (parseOnePair_some hpo).2.2.2.2.2
      injection he' with he'
      subst he'
      rw [hb] at hb'
      rw [ha] at ha'
      injection hb' with hb'
      injection ha' with ha'
      injection hb' with hbb hbq
      injection ha' with hba haq
      rcases hor with h | h
      · rw [← hbb] at hf1
        rw [h] at hf1
        exact Bool.false_ne_true hf1
      · rw [← hba] at hf2
        rw [h] at hf2
        exact Bool.false_ne_true hf2

/-- A row of a raw order book: `[[price, quantity]]`. -/
def rawRow (p q : ℚ) : List (List JsNum) := [[JsNum.num p, JsNum.num q]]

/-- A raw snapshot: the example's three markets, the `status` metadata key,
and a malformed entry with no books. -/
def rawExampleData : List (String × Option RawEntry) :=
  [("XIRT", some { bids := some (rawRow 990 10), asks := some (rawRow 1000 10) }),
   ("XUSDT", some { bids := some (rawRow (21/20) 10),
                    asks := some (rawRow (53/50) 10) }),
   ("USDTIRT", some { bids := some (rawRow 990 1000),
                      asks := some (rawRow 1000 1000) }),
   ("status", none),
   ("GARBAGE", some { bids := none, asks := none })]

/-- C8 witness: the invariants at the head of the concrete parsed snapshot. -/
theorem C8_normalizer_invariants_witness :
    (parseAllPairs rawExampleData).getD 0 default ∈
        parseAllPairs rawExampleData ∧
      0 < ((parseAllPairs rawExampleData).getD 0 default).bestBid :=
  ⟨getD_zero_mem _ _ (by with_unfolding_all decide),
   (C8_normalizer_invariants.1 rawExampleData _
      (getD_zero_mem _ _ (by with_unfolding_all decide))).1⟩

set_option maxRecDepth 2000 in
/-- C9: the end-to-end example. With pairs X/IRT (bid 990 qty 10, ask 1000
qty 10), X/USDT (bid 1.05 qty 10, ask 1.06 qty 10), USDT/IRT (bid 990,
ask 1000, depth 1000), bridge USDT, fee 0.35% per trade, the forward (cw)
triangle has rate 1.0395, grossPct 3.95, feePct 1.05, netPct 2.90,
maxExecutableVolume 10 asset units, volume 10000 IRT and profit 290 IRT. -/
theorem C9_end_to_end :
    (findTriangles examplePairs "USDT" (7/20)).length = 2 ∧
    ((findTriangles examplePairs "USDT" (7/20)).getD 0 default).direction = .cw ∧
    ((findTriangles examplePairs "USDT" (7/20)).getD 0 default).assets = ["X"] ∧
    ((findTriangles examplePairs "USDT" (7/20)).getD 0 default).rate =
      10395/10000 ∧
    ((findTriangles examplePairs "USDT" (7/20)).getD 0 default).grossPct =
      395/100 ∧
    ((findTriangles examplePairs "USDT" (7/20)).getD 0 default).feePct =
      105/100 ∧
    ((findTriangles examplePairs "USDT" (7/20)).getD 0 default).netPct =
      29/10 ∧
    cwMaxX pUSDTIRT eX = 10 ∧
    ((findTriangles examplePairs "USDT" (7/20)).getD 0 default).maxVolumeIRT =
      10000 ∧
    ((findTriangles examplePairs "USDT" (7/20)).getD 0 default).expectedProfitIRT =
      290 := by
  have hne : findTriangles examplePairs "USDT" (7/20) ≠ [] := by
    with_unfolding_all decide
  have hmem := getD_zero_mem (findTriangles examplePairs "USDT" (7/20))
    default hne
  obtain ⟨bridge, e, -, -, hsome⟩ := mem_findTriangles.mp hmem
  have hrel :
      ((findTriangles examplePairs "USDT" (7/20)).getD 0 default).feePct =
        3 * (7/20) ∧
      ((findTriangles examplePairs "USDT" (7/20)).getD 0 default).grossPct =
        (((findTriangles examplePairs "USDT" (7/20)).getD 0 default).rate - 1) *
          100 ∧
      ((findTriangles examplePairs "USDT" (7/20)).getD 0
          default).expectedProfitIRT =
        ((findTriangles examplePairs "USDT" (7/20)).getD 0 default).netPct /
            100 *
          ((findTriangles examplePairs "USDT" (7/20)).getD 0
            default).maxVolumeIRT := by
    rcases hsome with h | h
    · exact ⟨(triCW_some h).2.2.1, (triCW_some h).2.2.2.2.2.1,
        (triCW_some h).2.2.2.2.2.2⟩
    · exact ⟨(triCCW_some h).2.2.1, (triCCW_some h).2.2.2.2.2.1,
        (triCCW_some h).2.2.2.2.2.2⟩
  have hlen : (findTriangles examplePairs "USDT" (7/20)).length = 2 := by
    with_unfolding_all decide
  have hdir : ((findTriangles examplePairs "USDT" (7/20)).getD 0
      default).direction = .cw := by
    with_unfolding_all decide
  have hassets : ((findTriangles examplePairs "USDT" (7/20)).getD 0
      default).assets = ["X"] := by
    with_unfolding_all decide
  have hgross : ((findTriangles examplePairs "USDT" (7/20)).getD 0
      default).grossPct = 395/100 := by
    with_unfolding_all decide
  have hnet : ((findTriangles examplePairs "USDT" (7/20)).getD 0
      default).netPct = 29/10 := by
    with_unfolding_all decide
  have hmaxX : cwMaxX pUSDTIRT eX = 10 := by with_unfolding_all decide
  have hprofit : ((findTriangles examplePairs "USDT" (7/20)).getD 0
      default).expectedProfitIRT = 290 := by
    with_unfolding_all decide
  have hfee : ((findTriangles examplePairs "USDT" (7/20)).getD 0
      default).feePct = 105/100 := by
    rw [hrel.1]
    norm_num
  have hrate : ((findTriangles examplePairs "USDT" (7/20)).getD 0
      default).rate = 10395/10000 := by
    have h := hrel.2.1
    rw [hgross] at h
    linarith
  have hvol : ((findTriangles examplePairs "USDT" (7/20)).getD 0
      default).maxVolumeIRT = 10000 := by
    have h := hrel.2.2
    rw [hnet, hprofit] at h
    linarith
  exact ⟨hlen, hdir, hassets, hrate, hgross, hfee, hnet, hmaxX, hvol, hprofit⟩

/-- C10: the normalizer only ever produces quotes USDT or IRT, so with any
other bridge currency both finders return the empty list on normalized
pairs. -/
theorem C10_foreign_bridge (data : List (String × Option RawEntry))
    (b : String) (fee : ℚ) (n : ℕ) (hb1 : b ≠ "USDT") (hb2 : b ≠ "IRT") :
    (∀ p ∈ parseAllPairs data, p.quote = "USDT" ∨ p.quote = "IRT") ∧
    findTriangles (parseAllPairs data) b fee = [] ∧
    findCrossPairs (parseAllPairs data) b fee n = [] := by
  have hq : ∀ p ∈ parseAllPairs data, p.quote ≠ b := by
    intro p hp hc
    rcases quote_of_mem_parseAllPairs hp with h | h
    · exact hb1 (hc.symm.trans h)
    · exact hb2 (hc.symm.trans h)
  have hnil := buildAssetEntries_eq_nil hq
  refine ⟨fun p hp => quote_of_mem_parseAllPairs hp, ?_, ?_⟩
  · unfold findTriangles
    cases idxGet (parseAllPairs data) b "IRT" with
    | none => rfl
    | some bridge =>
      rw [hnil]
      rfl
  · simp [findCrossPairs, hnil, sortByKeyDesc]

/-- C10 witness: bridge "BTC" on the concrete raw snapshot. -/
theorem C10_foreign_bridge_witness :
    ("BTC" ≠ "USDT" ∧ "BTC" ≠ "IRT") ∧
      findTriangles (parseAllPairs rawExampleData) "BTC" (7/20) = [] :=
  ⟨⟨by decide, by decide⟩,
   (C10_foreign_bridge rawExampleData "BTC" (7/20) 200
      (by decide) (by decide)).2.1⟩

end Nobitex
